import Mathlib

/-!
Verification of the core pipeline of the YouTube Transcript Downloader
(`myc_gui.py`).  The Python routines that the checked properties concern are
shallowly embedded below: pure string manipulation is translated to functions
on `List Char`, the MD5 digest used by `generate_channel_id` is implemented
in full, the stateful routines (`download_single_transcript`,
`perform_cleanup`, `load_config`) are translated to explicit state passing,
and the external collaborators (the transcript-fetch service, the zip
library) are passed in as oracles describing their outcome.

Python's `str.strip`, `str.lower` and the regex classes `\w`, `[<>:"/\|?*]`
are modelled at the ASCII level (the inputs the program manipulates are
URLs, video ids and filenames); `set` values are modelled as lists, which is
faithful because the program only consumes them through membership tests and
unions.
-/

set_option maxRecDepth 1000000

/-! ## Python string primitives -/

/-- Whitespace as stripped by Python's `str.strip()` (ASCII fragment):
space, tab, newline, vertical tab, form feed, carriage return. -/
def isPySpace (c : Char) : Bool :=
  c.toNat == 32 || c.toNat == 9 || c.toNat == 10 || c.toNat == 11 ||
  c.toNat == 12 || c.toNat == 13

/-- Drop leading whitespace (the leading half of `str.strip()`). -/
def stripLead (l : List Char) : List Char := l.dropWhile isPySpace

/-- Drop trailing whitespace (the trailing half of `str.strip()`). -/
def stripTrail (l : List Char) : List Char := (l.reverse.dropWhile isPySpace).reverse

/-- Python `str.strip()`: remove whitespace from both ends. -/
def pyStrip (l : List Char) : List Char := stripTrail (stripLead l)

/-- Python `str.lower()` (ASCII fragment), using the A–Z → a–z map. -/
def pyLower (l : List Char) : List Char := l.map Char.toLower

/-- Python `str.rstrip('/')`: remove every trailing `'/'`. -/
def rstripSlash (l : List Char) : List Char :=
  (l.reverse.dropWhile (fun c => c == '/')).reverse

/-- Bool-valued substring test, Python's `needle in hay`. -/
def containsSub (needle hay : List Char) : Bool :=
  match hay with
  | [] => needle.isEmpty
  | _ :: rest => needle.isPrefixOf hay || containsSub needle rest

/-- Fuel-driven core of `pySplitLast`; the fuel is the length of the
remaining input, so it never runs out. -/
def pySplitLastF (sep : List Char) : Nat → List Char → List Char → List Char
  | 0, acc, l => acc.reverse ++ l
  | _, acc, [] => acc.reverse
  | fuel + 1, acc, c :: rest =>
    if sep ≠ [] ∧ sep.isPrefixOf (c :: rest) then
      pySplitLastF sep fuel [] ((c :: rest).drop sep.length)
    else
      pySplitLastF sep fuel (c :: acc) rest

/-- Python `s.split(sep)[-1]`: the text after the final match of the
left-to-right non-overlapping scan for `sep`. -/
def pySplitLast (sep l : List Char) : List Char := pySplitLastF sep l.length [] l

/-- Fuel-driven core of `pyReplace`. -/
def pyReplaceF (old new : List Char) : Nat → List Char → List Char
  | 0, l => l
  | _, [] => []
  | fuel + 1, c :: rest =>
    if old ≠ [] ∧ old.isPrefixOf (c :: rest) then
      new ++ pyReplaceF old new fuel ((c :: rest).drop old.length)
    else
      c :: pyReplaceF old new fuel rest

/-- Python `s.replace(old, new)`: replace non-overlapping occurrences left
to right. -/
def pyReplace (old new l : List Char) : List Char := pyReplaceF old new l.length l

/-! ## MD5 (the `hashlib.md5(...).hexdigest()` call in `generate_channel_id`) -/

/-- 32-bit left rotation on `Nat` values below `2^32`. -/
def rotl32 (x n : Nat) : Nat := ((x <<< n) % 4294967296) + (x >>> (32 - n))

def md5F (b c d : Nat) : Nat := (b &&& c) ||| ((b ^^^ 4294967295) &&& d)

def md5G (b c d : Nat) : Nat := (d &&& b) ||| ((d ^^^ 4294967295) &&& c)

def md5H (b c d : Nat) : Nat := b ^^^ c ^^^ d

def md5I (b c d : Nat) : Nat := c ^^^ (b ||| (d ^^^ 4294967295))

/-- The 64 MD5 round constants `floor(abs(sin(i+1)) * 2^32)`. -/
def md5K : List Nat := [3614090360, 3905402710, 606105819, 3250441966, 4118548399, 1200080426, 2821735955, 4249261313, 1770035416, 2336552879, 4294925233, 2304563134, 1804603682, 4254626195, 2792965006, 1236535329, 4129170786, 3225465664, 643717713, 3921069994, 3593408605, 38016083, 3634488961, 3889429448, 568446438, 3275163606, 4107603335, 1163531501, 2850285829, 4243563512, 1735328473, 2368359562, 4294588738, 2272392833, 1839030562, 4259657740, 2763975236, 1272893353, 4139469664, 3200236656, 681279174, 3936430074, 3572445317, 76029189, 3654602809, 3873151461, 530742520, 3299628645, 4096336452, 1126891415, 2878612391, 4237533241, 1700485571, 2399980690, 4293915773, 2240044497, 1873313359, 4264355552, 2734768916, 1309151649, 4149444226, 3174756917, 718787259, 3951481745]

/-- The 64 per-round left-rotation amounts. -/
def md5S : List Nat := [7, 12, 17, 22, 7, 12, 17, 22, 7, 12, 17, 22, 7, 12, 17, 22, 5, 9, 14, 20, 5, 9, 14, 20, 5, 9, 14, 20, 5, 9, 14, 20, 4, 11, 16, 23, 4, 11, 16, 23, 4, 11, 16, 23, 4, 11, 16, 23, 6, 10, 15, 21, 6, 10, 15, 21, 6, 10, 15, 21, 6, 10, 15, 21]

/-- MD5 padding: append `0x80`, zero-pad to 56 mod 64, then the message
bit length as 8 little-endian bytes. -/
def md5Pad (msg : List Nat) : List Nat :=
  let len := msg.length
  let bitLen := (len * 8) % 18446744073709551616
  msg ++ [128] ++ List.replicate ((119 - (len % 64)) % 64) 0 ++
    [bitLen % 256, bitLen / 256 % 256, bitLen / 65536 % 256, bitLen / 16777216 % 256,
     bitLen / 4294967296 % 256, bitLen / 1099511627776 % 256,
     bitLen / 281474976710656 % 256, bitLen / 72057594037927936 % 256]

/-- Split into 64-byte blocks (fuel-driven so that it reduces in the kernel). -/
def toBlocksF : Nat → List Nat → List (List Nat)
  | 0, _ => []
  | _, [] => []
  | fuel + 1, l => l.take 64 :: toBlocksF fuel (l.drop 64)

def toBlocks (l : List Nat) : List (List Nat) := toBlocksF l.length l

/-- Decode a 64-byte block into 16 little-endian 32-bit words. -/
def md5Words (block : List Nat) : List Nat :=
  (List.range 16).map (fun j =>
    block.getD (4 * j) 0 + 256 * block.getD (4 * j + 1) 0 +
    65536 * block.getD (4 * j + 2) 0 + 16777216 * block.getD (4 * j + 3) 0)

/-- One of the 64 MD5 rounds. -/
def md5Round (M : List Nat) (st : Nat × Nat × Nat × Nat) (i : Nat) : Nat × Nat × Nat × Nat :=
  let a := st.1
  let b := st.2.1
  let c := st.2.2.1
  let d := st.2.2.2
  let f := if i < 16 then md5F b c d else if i < 32 then md5G b c d
           else if i < 48 then md5H b c d else md5I b c d
  let g := if i < 16 then i else if i < 32 then (5 * i + 1) % 16
           else if i < 48 then (3 * i + 5) % 16 else (7 * i) % 16
  let tmp := (a + f + md5K.getD i 0 + M.getD g 0) % 4294967296
  let nb := (b + rotl32 tmp (md5S.getD i 0)) % 4294967296
  (d, nb, b, c)

/-- Absorb one 64-byte block into the running MD5 state. -/
def md5Block (st : Nat × Nat × Nat × Nat) (block : List Nat) : Nat × Nat × Nat × Nat :=
  let M := md5Words block
  let r := (List.range 64).foldl (md5Round M) st
  ((st.1 + r.1) % 4294967296, (st.2.1 + r.2.1) % 4294967296,
   (st.2.2.1 + r.2.2.1) % 4294967296, (st.2.2.2 + r.2.2.2) % 4294967296)

/-- A 32-bit word as 4 little-endian bytes. -/
def wordLEBytes (w : Nat) : List Nat := [w % 256, w / 256 % 256, w / 65536 % 256, w / 16777216 % 256]

/-- The 16-byte MD5 digest of a byte string. -/
def md5Bytes (msg : List Nat) : List Nat :=
  let r := (toBlocks (md5Pad msg)).foldl md5Block (1732584193, 4023233417, 2562383102, 271733878)
  wordLEBytes r.1 ++ wordLEBytes r.2.1 ++ wordLEBytes r.2.2.1 ++ wordLEBytes r.2.2.2

def hexAlphabet : List Char := "0123456789abcdef".toList

def hexDigitChar (n : Nat) : Char := hexAlphabet.getD n '0'

/-- The 32 lowercase hex characters of `hashlib.md5(bytes).hexdigest()`. -/
def md5HexChars (msg : List Nat) : List Char :=
  (md5Bytes msg).flatMap (fun b => [hexDigitChar (b / 16), hexDigitChar (b % 16)])

/-- UTF-8 encoding of one scalar value (Python `str.encode()`). -/
def utf8Bytes (c : Char) : List Nat :=
  let n := c.toNat
  if n < 128 then [n]
  else if n < 2048 then [192 + n / 64, 128 + n % 64]
  else if n < 65536 then [224 + n / 4096, 128 + n / 64 % 64, 128 + n % 64]
  else [240 + n / 262144, 128 + n / 4096 % 64, 128 + n / 64 % 64, 128 + n % 64]

def utf8Encode (s : String) : List Nat := s.toList.flatMap utf8Bytes

/-! ## Channel resolver (`generate_channel_id`, `extract_channel_name`) -/

/-- The normalization inside `generate_channel_id`:
`channel_url.strip().lower().rstrip('/')`. -/
def normChars (l : List Char) : List Char := rstripSlash (pyLower (pyStrip l))

def normalize_url (s : String) : String := String.mk (normChars s.toList)

/-- Whether a string ends in a (Python-strippable) whitespace character. -/
def endsWithPySpace (s : String) : Bool :=
  match s.toList.reverse.head? with
  | some c => isPySpace c
  | none => false

/-- `TranscriptProcessor.generate_channel_id`:
`hashlib.md5(normalized_url.encode()).hexdigest()[:12]`. -/
def generate_channel_id (channel_url : String) : String :=
  String.mk ((md5HexChars (utf8Encode (normalize_url channel_url))).take 12)

/-- The marker substrings checked, in order, by `extract_channel_name`. -/
def channelMarkers : List (List Char) :=
  ["/@".toList, "/c/".toList, "/channel/".toList, "/user/".toList]

/-- The characters removed by `re.sub(r'[<>:"/\\|?*]', '', name)`. -/
def illegalFsChar (c : Char) : Bool :=
  c == '<' || c == '>' || c == ':' || c == '"' || c == '/' || c == '\\' ||
  c == '|' || c == '?' || c == '*'

/-- Regex `\w` (ASCII fragment): letters, digits, underscore. -/
def isWordCharB (c : Char) : Bool := c.isAlphanum || c == '_'

/-- The two `re.sub` calls at the end of `extract_channel_name`: strip
filesystem-illegal characters, then replace every character outside
`[\w\-_.]` by `'_'`. -/
def sanitizeName (name : List Char) : List Char :=
  (name.filter (fun c => !illegalFsChar c)).map
    (fun c => if isWordCharB c || c == '-' || c == '.' then c else '_')

/-- The name selection of `extract_channel_name`: the text after the last
occurrence of the first marker found in the url (Python
`url.split(key)[-1]`), or after the last `'/'` when no marker occurs. -/
def rawChannelName (url : List Char) : List Char :=
  match channelMarkers.find? (fun m => containsSub m url) with
  | some m => pySplitLast m url
  | none => pySplitLast ['/'] url

/-- `TranscriptProcessor.extract_channel_name`. -/
def extract_channel_name (channel_url : String) : String :=
  String.mk (sanitizeName (rawChannelName (rstripSlash channel_url.toList)))

/-- Follows the words of claim C7 (not the source): "the path segment
following the first of the markers `/@`, `/c/`, `/channel/`, `/user/`
(checked in that priority order), or the final path segment when none of
the markers occurs, with characters illegal in filesystem names stripped
and every remaining non-word character replaced by `'_'`". -/
def extract_channel_name_claim (channel_url : String) : String :=
  let url := rstripSlash channel_url.toList
  let seg :=
    match channelMarkers.find? (fun m => containsSub m url) with
    | some m => (pySplitLast m url).takeWhile (fun c => c != '/')
    | none => pySplitLast ['/'] url
  String.mk ((seg.filter (fun c => !illegalFsChar c)).map
    (fun c => if isWordCharB c then c else '_'))

/-! ## Transcript files and reconciliation
(`save_transcript`, `get_existing_transcripts`, `process_channel` lines
180–182) -/

/-- The title sanitization in `save_transcript`:
`re.sub(r'[<>:"/\\|?*]', '', video_title)[:150]`. -/
def clean_title (title : String) : List Char :=
  ((title.toList).filter (fun c => !illegalFsChar c)).take 150

/-- The file name written by `save_transcript`:
`f"{clean_title} ({video_id}).txt"`. -/
def transcript_filename (title video_id : String) : String :=
  String.mk (clean_title title ++ [' ', '('] ++ video_id.toList ++ [')', '.', 't', 'x', 't'])

/-- The per-file scan of `get_existing_transcripts`:
`re.search(r'\((\w{11})\)\.txt$', f)`, returning group 1.  Because of the
`$` anchor and the fixed pattern width the only candidate window is the
last 17 characters of the name. -/
def scanTranscriptId (filename : String) : Option String :=
  let r := filename.toList.reverse
  if r.take 5 = [')', '.', 't', 'x', 't'].reverse then
    let rest := r.drop 5
    if (rest.take 11).length == 11 && (rest.take 11).all isWordCharB &&
        ((rest.drop 11).head? == some '(') then
      some (String.mk (rest.take 11).reverse)
    else
      none
  else
    none

/-- `TranscriptProcessor.get_existing_transcripts` on a directory listing.
The Python code builds a `set`; downstream it is consumed only through
union and membership, so a list of the extracted ids is a faithful model. -/
def get_existing_transcripts (dir_files : List String) : List String :=
  dir_files.filterMap scanTranscriptId

/-- One video entry of the channel listing. -/
structure VideoInfo where
  id : String
  title : String
  deriving DecidableEq, Repr

/-- Lines 180–182 of `process_channel`: the completed set becomes
`set(progress['completed_videos']) | existing_ids` and the remaining
videos are those whose id is not in that union.  Membership in
`list(set(a) | set(b))` is membership in `a` or in `b`. -/
def remaining_videos (video_infos : List VideoInfo) (completed : List String)
    (dir_files : List String) : List VideoInfo :=
  let existing_ids := get_existing_transcripts dir_files
  video_infos.filter (fun v => !(completed.contains v.id || existing_ids.contains v.id))

/-! ## Download engine (`download_single_transcript`) -/

/-- The progress record fields mutated by the download engine. -/
structure Progress where
  completed_videos : List String
  failed_videos : List (String × String)
  deriving DecidableEq, Repr

/-- Outcome of one call to the external transcript-fetch service
(`YouTubeTranscriptApi.get_transcript`): success, the two non-retryable
exceptions `TranscriptsDisabled`/`NoTranscriptFound` (collapsed to one
constructor carrying the reason string), or any other exception. -/
inductive FetchResult where
  | ok (transcript : List String)
  | noTranscript (reason : String)
  | err (message : String)

/-- The retry loop of `download_single_transcript`.  The fuel is
`max_retries - retries`; `attempts` counts the fetch calls made so far and
is returned with the result.  The pause/stop flags are not modelled (the
claims concern an uninterrupted run), and the sleeps are irrelevant to the
state. -/
def downloadAttempts (video_id : String) (fetch : Nat → FetchResult) :
    Nat → Nat → Progress → Bool × Progress × Nat
  | 0, attempts, p => (false, p, attempts)
  | fuel + 1, attempts, p =>
    match fetch attempts with
    | .ok _ =>
      (true, { p with completed_videos := p.completed_videos ++ [video_id] }, attempts + 1)
    | .noTranscript reason =>
      (true, { p with failed_videos := p.failed_videos ++ [(video_id, reason)] }, attempts + 1)
    | .err _ => downloadAttempts video_id fetch fuel (attempts + 1) p

/-- `TranscriptProcessor.download_single_transcript`: returns the Bool the
Python function returns, the updated progress record, and how many fetch
attempts were made. -/
def download_single_transcript (video_id : String) (max_retries : Nat)
    (fetch : Nat → FetchResult) (p : Progress) : Bool × Progress × Nat :=
  downloadAttempts video_id fetch max_retries 0 p

/-! ## PDF paginator (`create_pdfs_from_transcripts`) -/

/-- The pagination loop of `create_pdfs_from_transcripts`, abstracted to
the word counts of the files in the order they are processed (sorted
filename order in the source).  `cur` holds the word counts of the files
placed in the open document, most recent first; a document is closed when
`word_count + file_word_count > max_words_per_pdf and files_in_pdf > 0`,
and the final document is built only when it contains a file. -/
def paginateGo (max_words : Nat) : List Nat → List Nat → List (List Nat)
  | cur, [] => if cur.isEmpty then [] else [cur.reverse]
  | cur, f :: rest =>
    if cur.sum + f > max_words ∧ cur ≠ [] then
      cur.reverse :: paginateGo max_words [f] rest
    else
      paginateGo max_words (f :: cur) rest

/-- The documents produced for a sequence of file word counts. -/
def create_pdfs_pagination (max_words : Nat) (files : List Nat) : List (List Nat) :=
  paginateGo max_words [] files

/-- Line 325: the body text placed in the PDF for a file's content,
`content.replace('&', '&').replace('<', '<')` (both replacements map a
character to itself). -/
def pdf_body_text (content : String) : String :=
  String.mk (pyReplace ['<'] ['<'] (pyReplace ['&'] ['&'] content.toList))

/-- Modelled from the spec: the "minimal two-character HTML-entity escape
for `&`/`<`" that claim C8 asserts, i.e. `&` ↦ `&amp;` and `<` ↦ `&lt;`. -/
def pdf_body_text_escaped (content : String) : String :=
  String.mk (pyReplace ['<'] "&lt;".toList (pyReplace ['&'] "&amp;".toList content.toList))

/-! ## Archiver / cleanup (`perform_cleanup`) -/

/-- The parts of the filesystem `perform_cleanup` touches: the transcript
directory (a list of relative-path/content pairs when present), the
progress file content, and the archive zip. -/
structure FsState where
  transcript_dir : Option (List (String × String))
  progress_file : Option String
  archive : Option (List (String × String))
  deriving DecidableEq, Repr

/-- Observable actions of `perform_cleanup`, in order. -/
inductive CleanupEvent where
  | zipWritten
  | deletedTranscriptDir
  | removedProgressFile
  deriving DecidableEq, Repr

/-- What the zip receives: the transcript tree (relative paths) followed by
the progress file under its base name. -/
def archiveContents (fs : FsState) (progress_name : String) : List (String × String) :=
  (fs.transcript_dir.getD []) ++
    (match fs.progress_file with
     | some c => [(progress_name, c)]
     | none => [])

/-- `TranscriptProcessor.perform_cleanup`.  `zip_ok` is the outcome of the
zip construction (the external `zipfile` collaborator); when it throws,
`zip_leftover` is whatever partial archive file the failed write left
behind.  The deletions themselves (`shutil.rmtree`, `os.remove`) are
modelled as succeeding; each is guarded by an existence check in the
source. -/
def perform_cleanup (zip_ok : Bool) (zip_leftover : Option (List (String × String)))
    (progress_name : String) (fs : FsState) : Bool × FsState × List CleanupEvent :=
  if zip_ok then
    let fs1 : FsState := { fs with archive := some (archiveContents fs progress_name) }
    let step2 : FsState × List CleanupEvent :=
      match fs1.transcript_dir with
      | some _ => ({ fs1 with transcript_dir := none }, [CleanupEvent.deletedTranscriptDir])
      | none => (fs1, [])
    let step3 : FsState × List CleanupEvent :=
      match step2.1.progress_file with
      | some _ => ({ step2.1 with progress_file := none }, [CleanupEvent.removedProgressFile])
      | none => (step2.1, [])
    (true, step3.1, CleanupEvent.zipWritten :: step2.2 ++ step3.2)
  else
    (false, { fs with archive := zip_leftover }, [])

/-! ## Configuration store (`load_config`) -/

/-- JSON values, as produced by `json.load`. -/
inductive JValue where
  | null
  | jbool (b : Bool)
  | num (n : Int)
  | str (s : String)
  | arr (elems : List JValue)
  | obj (fields : List (String × JValue))

/-- A JSON object document, keys in insertion order (Python dict). -/
abbrev ConfigDoc := List (String × JValue)

def jLookup (d : ConfigDoc) (k : String) : Option JValue :=
  (d.find? (fun kv => kv.1 == k)).map (fun kv => kv.2)

def jKeys (d : ConfigDoc) : List String := d.map (fun kv => kv.1)

def jHasKey (d : ConfigDoc) (k : String) : Bool := d.any (fun kv => kv.1 == k)

/-- Python `d[k] = v`: update in place when the key exists, else append. -/
def jSet (d : ConfigDoc) (k : String) (v : JValue) : ConfigDoc :=
  if jHasKey d k then d.map (fun kv => if kv.1 == k then (kv.1, v) else kv)
  else d ++ [(k, v)]

/-- `DEFAULT_CONFIG` from the source. -/
def DEFAULT_CONFIG : ConfigDoc :=
  [("channels", JValue.arr
      [JValue.obj [("url", JValue.str "https://www.youtube.com/@drekberg"), ("completed", JValue.jbool false)],
       JValue.obj [("url", JValue.str "https://www.youtube.com/c/paulsaladinomd"), ("completed", JValue.jbool false)]]),
   ("requests_per_hour", JValue.num 300),
   ("delay_between_requests", JValue.num 6),
   ("max_retries", JValue.num 3),
   ("retry_delay", JValue.num 30),
   ("batch_size", JValue.num 50),
   ("playlist_end", JValue.num 0),
   ("pause_between_batches", JValue.num 300),
   ("max_words_per_pdf", JValue.num 490000)]

/-- Python truthiness of a JSON value. -/
def jTruthy : JValue → Bool
  | .null => false
  | .jbool b => b
  | .num n => n != 0
  | .str s => s != ""
  | .arr l => !l.isEmpty
  | .obj l => !l.isEmpty

/-- Outcome of Python `v[0]`. -/
inductive IndexResult where
  | val (v : JValue)
  | indexError
  | typeError

/-- Python `v[0]`: a `str` indexes to its first character, a list to its
first element; an empty sequence raises `IndexError` (caught by
`load_config`); everything else raises an uncaught `TypeError`/`KeyError`. -/
def pyIndex0 : JValue → IndexResult
  | .arr [] => .indexError
  | .arr (x :: _) => .val x
  | .str s =>
    match s.toList with
    | [] => .indexError
    | c :: _ => .val (.str (String.mk [c]))
  | _ => .typeError

def jIsStr : JValue → Bool
  | .str _ => true
  | _ => false

/-- Python iteration over the channels value during migration (only ever
applied to a truthy list or string). -/
def pyIterate : JValue → List JValue
  | .arr l => l
  | .str s => s.toList.map (fun c => JValue.str (String.mk [c]))
  | _ => []

/-- Outcome of the legacy-migration block inside the `try`. -/
inductive MigrateResult where
  | ok (d : ConfigDoc) (flag : Bool)
  | caughtIndexError
  | uncaught

/-- Lines 63–66: if `config.get('channels')` is truthy and its first
element is a `str`, rebuild the channel list as
`[{"url": url, "completed": False} for url in config['channels']]` and
mark the document for saving. -/
def migrateStep (d : ConfigDoc) : MigrateResult :=
  match jLookup d "channels" with
  | none => .ok d false
  | some v =>
    if jTruthy v then
      match pyIndex0 v with
      | .val x =>
        if jIsStr x then
          .ok (jSet d "channels" (JValue.arr ((pyIterate v).map
            (fun u => JValue.obj [("url", u), ("completed", JValue.jbool false)])))) true
        else .ok d false
      | .indexError => .caughtIndexError
      | .typeError => .uncaught
    else .ok d false

/-- One iteration of the default-filling loop: `if key not in config:
config[key] = value; config_to_save = True` (setting an absent key
appends it). -/
def fillStep (acc : ConfigDoc × Bool) (kv : String × JValue) : ConfigDoc × Bool :=
  if jHasKey acc.1 kv.1 then acc else (acc.1 ++ [(kv.1, kv.2)], true)

/-- Lines 74–78: `for key, value in DEFAULT_CONFIG.items(): ...`. -/
def fillDefaults (st : ConfigDoc × Bool) : ConfigDoc × Bool :=
  DEFAULT_CONFIG.foldl fillStep st

/-- Lines 80–82: force `channels` to be a list. -/
def channelsCheck (st : ConfigDoc × Bool) : ConfigDoc × Bool :=
  match jLookup st.1 "channels" with
  | some (.arr _) => st
  | _ => (jSet st.1 "channels" (JValue.arr []), true)

/-- The state of the config file as seen by `load_config`. -/
inductive ConfigFile where
  | absent
  | malformed
  | parsed (d : ConfigDoc)

/-- `load_config`.  Returns the resulting document together with the
`config_to_save` flag (true exactly when `save_config` is called at the
end); `none` when an uncaught exception escapes (e.g. a non-indexable
`channels` value). -/
def load_config : ConfigFile → Option (ConfigDoc × Bool)
  | .absent => some (channelsCheck (fillDefaults (DEFAULT_CONFIG, true)))
  | .malformed => some (channelsCheck (fillDefaults (DEFAULT_CONFIG, true)))
  | .parsed d =>
    match migrateStep d with
    | .ok d' flag => some (channelsCheck (fillDefaults (d', flag)))
    | .caughtIndexError => some (channelsCheck (fillDefaults (DEFAULT_CONFIG, true)))
    | .uncaught => none

/-! ## Helper lemmas -/

theorem jHasKey_iff (d : ConfigDoc) (k : String) : jHasKey d k = true ↔ k ∈ jKeys d := by
  simp [jHasKey, jKeys, List.any_eq_true, List.mem_map, beq_iff_eq]

theorem paginateGo_docs (max_words : Nat) :
    ∀ (files cur : List Nat), (2 ≤ cur.length → cur.sum ≤ max_words) →
      ∀ doc ∈ paginateGo max_words cur files,
        doc ≠ [] ∧ (2 ≤ doc.length → doc.sum ≤ max_words) := by
  intro files
  induction files with
  | nil =>
    intro cur hcur doc hdoc
    simp only [paginateGo] at hdoc
    by_cases h : cur.isEmpty
    · rw [if_pos h] at hdoc
      simp at hdoc
    · rw [if_neg h] at hdoc
      have hdoc' : doc = cur.reverse := by simpa using hdoc
      subst hdoc'
      have hne : cur ≠ [] := by simpa [List.isEmpty_iff] using h
      refine ⟨by simpa using hne, fun hlen => ?_⟩
      rw [List.sum_reverse]
      exact hcur (by simpa using hlen)
  | cons f rest ih =>
    intro cur hcur doc hdoc
    simp only [paginateGo] at hdoc
    by_cases h : cur.sum + f > max_words ∧ cur ≠ []
    · rw [if_pos h] at hdoc
      rcases List.mem_cons.mp hdoc with hdoc' | hdoc'
      · subst hdoc'
        refine ⟨by simpa using h.2, fun hlen => ?_⟩
        rw [List.sum_reverse]
        exact hcur (by simpa using hlen)
      · exact ih [f] (by simp) doc hdoc'
    · rw [if_neg h] at hdoc
      refine ih (f :: cur) ?_ doc hdoc
      intro hlen
      by_cases hne : cur = []
      · subst hne
        simp at hlen
      · have hle : ¬ cur.sum + f > max_words := fun hgt => h ⟨hgt, hne⟩
        simp only [List.sum_cons]
        omega

theorem downloadAttempts_all_err (video_id : String) (fetch : Nat → FetchResult)
    (herr : ∀ n, ∃ m, fetch n = FetchResult.err m) :
    ∀ (fuel attempts : Nat) (p : Progress),
      downloadAttempts video_id fetch fuel attempts p = (false, p, attempts + fuel) := by
  intro fuel
  induction fuel with
  | zero => intro attempts p; simp [downloadAttempts]
  | succ n ih =>
    intro attempts p
    obtain ⟨m, hm⟩ := herr attempts
    rw [downloadAttempts, hm, ih (attempts + 1) p]
    have : attempts + 1 + n = attempts + (n + 1) := by omega
    rw [this]

/-! ## Claim theorems -/

/-- C1: the spec requires that a transcript file on disk prevents
re-download even when the progress file is absent.  The code violates this
for video ids containing `'-'`: with an empty progress record and the file
written by `save_transcript` for title "T" and the 11-character id
"abc-efghijk" present in the output directory, the directory scan extracts
nothing and the video is still selected for download. -/
theorem c1_hyphen_id_on_disk_still_redownloaded :
    get_existing_transcripts [transcript_filename "T" "abc-efghijk"] = [] ∧
    remaining_videos [⟨"abc-efghijk", "T"⟩] [] [transcript_filename "T" "abc-efghijk"] =
      [⟨"abc-efghijk", "T"⟩] := by
  constructor
  · rfl
  · rfl

/-- C2: the paginator closes the current document exactly when the running
word count plus the next file's word count exceeds the budget and the
document already holds a file; every produced document with at least two
files stays within the budget; a file alone exceeding the budget ends up
alone in its document; and word counts [100, 100, 100] with budget 150
produce three one-file documents. -/
theorem c2_pdf_pagination (max_words : Nat) (files : List Nat) :
    (∀ (cur : List Nat) (f : Nat) (rest : List Nat),
      paginateGo max_words cur (f :: rest) =
        if cur.sum + f > max_words ∧ cur ≠ [] then
          cur.reverse :: paginateGo max_words [f] rest
        else paginateGo max_words (f :: cur) rest) ∧
    (∀ doc ∈ create_pdfs_pagination max_words files,
      2 ≤ doc.length → doc.sum ≤ max_words) ∧
    (∀ doc ∈ create_pdfs_pagination max_words files,
      ∀ f ∈ doc, max_words < f → doc = [f]) ∧
    create_pdfs_pagination 150 [100, 100, 100] = [[100], [100], [100]] := by
  refine ⟨fun cur f rest => rfl, ?_, ?_, rfl⟩
  · intro doc hdoc
    exact (paginateGo_docs max_words files [] (by simp) doc hdoc).2
  · intro doc hdoc f hf hbig
    obtain ⟨hne, hbound⟩ := paginateGo_docs max_words files [] (by simp) doc hdoc
    by_cases hlen : 2 ≤ doc.length
    · have hsum : f ≤ doc.sum := List.single_le_sum (fun x _ => Nat.zero_le x) f hf
      omega
    · have hpos : 0 < doc.length := List.length_pos.mpr hne
      have h1 : doc.length = 1 := by omega
      obtain ⟨x, rfl⟩ := List.length_eq_one.mp h1
      have : f = x := by simpa using hf
      subst this
      rfl

/-- Witness for C2 at a concrete instance: the two-file document produced
for word counts [10, 10] under budget 300 respects the budget. -/
theorem c2_pdf_pagination_witness :
    [10, 10] ∈ create_pdfs_pagination 300 [10, 10] ∧ ([10, 10] : List Nat).sum ≤ 300 :=
  ⟨by decide, (c2_pdf_pagination 300 [10, 10]).2.1 [10, 10] (by decide) (by decide)⟩

/-- C3: a video whose fetch always raises a generic error is attempted
exactly `max_retries` times, the function returns the failure Bool, and the
progress record is unchanged; a video whose fetch raises "transcript
disabled"/"no transcript found" is attempted exactly once, an (id, reason)
entry is appended to `failed_videos`, and `completed_videos` is unchanged. -/
theorem c3_retry_policy (video_id : String) (max_retries : Nat) (p : Progress) :
    (∀ fetch : Nat → FetchResult, (∀ n, ∃ m, fetch n = FetchResult.err m) →
      download_single_transcript video_id max_retries fetch p = (false, p, max_retries)) ∧
    (∀ (fetch : Nat → FetchResult) (reason : String), 0 < max_retries →
      fetch 0 = FetchResult.noTranscript reason →
      download_single_transcript video_id max_retries fetch p =
        (true, { p with failed_videos := p.failed_videos ++ [(video_id, reason)] }, 1)) := by
  constructor
  · intro fetch herr
    rw [download_single_transcript, downloadAttempts_all_err video_id fetch herr]
    simp
  · intro fetch reason hpos hfetch
    obtain ⟨k, rfl⟩ : ∃ k, max_retries = k + 1 := ⟨max_retries - 1, by omega⟩
    rw [download_single_transcript, downloadAttempts, hfetch]

/-- Witness for C3 at concrete inputs: three attempts for an always-failing
fetch, one attempt and one `failed_videos` entry for a no-transcript fetch. -/
theorem c3_retry_policy_witness :
    download_single_transcript "v" 3 (fun _ => FetchResult.err "boom") ⟨[], []⟩ =
      (false, ⟨[], []⟩, 3) ∧
    download_single_transcript "v" 3 (fun _ => FetchResult.noTranscript "r") ⟨["w"], []⟩ =
      (true, ⟨["w"], [("v", "r")]⟩, 1) :=
  ⟨(c3_retry_policy "v" 3 ⟨[], []⟩).1 _ (fun _ => ⟨"boom", rfl⟩),
   (c3_retry_policy "v" 3 ⟨["w"], []⟩).2 _ "r" (by omega) rfl⟩

/-- C8: the spec says `&` and `<` in a transcript body are replaced by
HTML-entity escapes before being placed in the PDF, but line 325 replaces
each character by itself: on the content "a & b < c" the emitted body text
equals the raw content and differs from the escaped text the claim
describes. -/
theorem c8_no_html_escaping :
    pdf_body_text "a & b < c" = "a & b < c" ∧
    pdf_body_text "a & b < c" ≠ pdf_body_text_escaped "a & b < c" := by
  constructor
  · rfl
  · decide

/-- C4: when zip construction throws, `perform_cleanup` returns false and
the transcript directory and the progress file are untouched with no
deletion performed; and any deletion event can only occur after the zip
has been written (it is always preceded by `zipWritten` at the head of the
event trace). -/
theorem c4_cleanup_safety (progress_name : String) (fs : FsState) :
    (∀ zip_leftover : Option (List (String × String)),
      (perform_cleanup false zip_leftover progress_name fs).1 = false ∧
      (perform_cleanup false zip_leftover progress_name fs).2.1.transcript_dir = fs.transcript_dir ∧
      (perform_cleanup false zip_leftover progress_name fs).2.1.progress_file = fs.progress_file ∧
      (perform_cleanup false zip_leftover progress_name fs).2.2 = []) ∧
    (∀ (zip_ok : Bool) (zip_leftover : Option (List (String × String))) (e : CleanupEvent),
      e ∈ (perform_cleanup zip_ok zip_leftover progress_name fs).2.2 →
      e ≠ CleanupEvent.zipWritten →
      (perform_cleanup zip_ok zip_leftover progress_name fs).2.2.head? =
        some CleanupEvent.zipWritten) := by
  obtain ⟨td, pf, ar⟩ := fs
  constructor
  · intro zp
    simp [perform_cleanup]
  · intro zok zp e hmem hne
    cases zok
    · simp [perform_cleanup] at hmem
    · cases td <;> cases pf <;> simp [perform_cleanup]

/-- Witness for C4 at a concrete filesystem state: failure leaves the
state untouched, success emits `zipWritten` first. -/
theorem c4_cleanup_safety_witness :
    (perform_cleanup false (some []) "p.json" ⟨some [("f", "b")], some "x", none⟩).1 = false ∧
    (perform_cleanup true none "p.json" ⟨some [("f", "b")], some "x", none⟩).2.2.head? =
      some CleanupEvent.zipWritten :=
  ⟨((c4_cleanup_safety "p.json" ⟨some [("f", "b")], some "x", none⟩).1 (some [])).1,
   (c4_cleanup_safety "p.json" ⟨some [("f", "b")], some "x", none⟩).2 true none
     CleanupEvent.deletedTranscriptDir (by decide) (by decide)⟩

/-- C9: a transcript file written by `save_transcript` for an 11-character
video id containing `'-'` is never matched by the directory scan
(`\((\w{11})\)\.txt$` has no `'-'` in `\w`), so with that id absent from
the recorded completed list the video is selected for download again even
though its transcript file is on disk. -/
theorem c9_hyphen_id_never_matched (title video_id : String) (completed : List String)
    (h11 : video_id.length = 11) (hhy : '-' ∈ video_id.toList)
    (hnc : video_id ∉ completed) :
    get_existing_transcripts [transcript_filename title video_id] = [] ∧
    remaining_videos [⟨video_id, title⟩] completed [transcript_filename title video_id] =
      [⟨video_id, title⟩] := by
  have hrev : (transcript_filename title video_id).toList.reverse =
      't' :: 'x' :: 't' :: '.' :: ')' ::
        (video_id.toList.reverse ++ '(' :: ' ' :: (clean_title title).reverse) := by
    simp [transcript_filename, List.reverse_append]
  have htake : (video_id.toList.reverse ++ '(' :: ' ' :: (clean_title title).reverse).take 11 =
      video_id.toList.reverse := List.take_left' (by simpa using h11)
  have hall : (video_id.toList.reverse).all isWordCharB = false := by
    rw [List.all_eq_false]
    exact ⟨'-', List.mem_reverse.mpr hhy, by decide⟩
  have hscan : scanTranscriptId (transcript_filename title video_id) = none := by
    simp only [scanTranscriptId, hrev]
    simp only [List.take_succ_cons, List.take_zero, List.drop_succ_cons, List.drop_zero]
    rw [if_pos (by decide : (['t', 'x', 't', '.', ')'] : List Char) = [')', '.', 't', 'x', 't'].reverse),
      htake, hall]
    simp
  have hexist : get_existing_transcripts [transcript_filename title video_id] = [] := by
    simp [get_existing_transcripts, hscan]
  refine ⟨hexist, ?_⟩
  simp only [remaining_videos, hexist]
  have hpred : (!(completed.contains video_id || ([] : List String).contains video_id)) = true := by
    simp
    simpa using hnc
  simp only [List.filter, hpred]

/-- Witness for C9 at a concrete id with a hyphen. -/
theorem c9_hyphen_id_never_matched_witness :
    get_existing_transcripts [transcript_filename "U" "xyz-efghijk"] = [] ∧
    remaining_videos [⟨"xyz-efghijk", "U"⟩] ["other"] [transcript_filename "U" "xyz-efghijk"] =
      [⟨"xyz-efghijk", "U"⟩] :=
  c9_hyphen_id_never_matched "U" "xyz-efghijk" ["other"] (by decide) (by decide) (by decide)

/-- C10: the remaining-video selection filters only on `completed_videos`,
so a video recorded in `failed_videos` (and absent from the completed set
and from the directory scan, as a no-transcript video is) is selected
again on a later run, and its renewed fetch appends one more identical
(id, reason) entry to `failed_videos` while leaving `completed_videos`
unchanged — the entry is now duplicated. -/
theorem c10_failed_videos_refetched (videos : List VideoInfo) (v : VideoInfo)
    (p : Progress) (dir_files : List String) (reason : String)
    (max_retries : Nat) (fetch : Nat → FetchResult)
    (hv : v ∈ videos) (hfail : (v.id, reason) ∈ p.failed_videos)
    (hnc : v.id ∉ p.completed_videos) (hnd : v.id ∉ get_existing_transcripts dir_files)
    (hmr : 0 < max_retries) (hfetch : fetch 0 = FetchResult.noTranscript reason) :
    v ∈ remaining_videos videos p.completed_videos dir_files ∧
    (download_single_transcript v.id max_retries fetch p).2.1.completed_videos =
      p.completed_videos ∧
    (download_single_transcript v.id max_retries fetch p).2.1.failed_videos =
      p.failed_videos ++ [(v.id, reason)] ∧
    2 ≤ ((download_single_transcript v.id max_retries fetch p).2.1.failed_videos).count
      (v.id, reason) := by
  obtain ⟨k, rfl⟩ : ∃ k, max_retries = k + 1 := ⟨max_retries - 1, by omega⟩
  have hdl : download_single_transcript v.id (k + 1) fetch p =
      (true, { p with failed_videos := p.failed_videos ++ [(v.id, reason)] }, 1) := by
    rw [download_single_transcript, downloadAttempts, hfetch]
  refine ⟨?_, by rw [hdl], by rw [hdl], ?_⟩
  · have hpred : (!(p.completed_videos.contains v.id ||
        (get_existing_transcripts dir_files).contains v.id)) = true := by
      simp
      exact ⟨by simpa using hnc, by simpa using hnd⟩
    simp only [remaining_videos]
    exact List.mem_filter.mpr ⟨hv, hpred⟩
  · rw [hdl]
    have h1 : 0 < p.failed_videos.count (v.id, reason) := List.count_pos_iff.mpr hfail
    have h2 : List.count (v.id, reason) [(v.id, reason)] = 1 := by simp
    simp only [List.count_append]
    omega

/-- Witness for C10 at concrete inputs. -/
theorem c10_failed_videos_refetched_witness :
    (⟨"vid42vid42x", "T"⟩ : VideoInfo) ∈
      remaining_videos [⟨"vid42vid42x", "T"⟩] ["done"] [] ∧
    (download_single_transcript "vid42vid42x" 3
      (fun _ => FetchResult.noTranscript "nope") ⟨["done"], [("vid42vid42x", "nope")]⟩).2.1.completed_videos =
      ["done"] ∧
    (download_single_transcript "vid42vid42x" 3
      (fun _ => FetchResult.noTranscript "nope") ⟨["done"], [("vid42vid42x", "nope")]⟩).2.1.failed_videos =
      [("vid42vid42x", "nope")] ++ [("vid42vid42x", "nope")] ∧
    2 ≤ ((download_single_transcript "vid42vid42x" 3
      (fun _ => FetchResult.noTranscript "nope") ⟨["done"], [("vid42vid42x", "nope")]⟩).2.1.failed_videos).count
      ("vid42vid42x", "nope") :=
  c10_failed_videos_refetched [⟨"vid42vid42x", "T"⟩] ⟨"vid42vid42x", "T"⟩
    ⟨["done"], [("vid42vid42x", "nope")]⟩ [] "nope" 3 (fun _ => FetchResult.noTranscript "nope")
    (by decide) (by decide) (by decide) (by decide) (by omega) rfl

/-- C7 counterexample: the claim predicts, for url "https://x/@a.b", the
name "a_b" (path segment "a.b" with the non-word '.' replaced by '_');
the code keeps '.' (its replacement class is `[^\w\-_.]`) and returns
"a.b". -/
theorem c7_channel_name_counterexample :
    extract_channel_name "https://x/@a.b" ≠ extract_channel_name_claim "https://x/@a.b" := by
  decide

/-- C7 (amended): `extract_channel_name` takes the whole suffix after the
last occurrence of the first marker among `/@`, `/c/`, `/channel/`,
`/user/` present in the trailing-slash-stripped url (else the suffix after
the last '/'), strips the filesystem-illegal characters, and replaces the
characters outside `[\w\-_.]` by '_' — so '-' and '.' survive; every
character of the result is a word character, '-' or '.', and the function
is a pure function of the url. -/
theorem c7_channel_name_amended :
    (∀ (url : String), ∀ c ∈ (extract_channel_name url).toList,
      (isWordCharB c || c == '-' || c == '.') = true) ∧
    extract_channel_name "https://x/@a.b" = "a.b" ∧
    extract_channel_name "https://x/@a/videos" = "avideos" ∧
    extract_channel_name "https://tube/c/x/@y" = "y" ∧
    extract_channel_name "https://www.youtube.com/channel/UC1-2_3" = "UC1-2_3" ∧
    extract_channel_name "https://youtube.com" = "youtube.com" := by
  refine ⟨?_, by decide, by decide, by decide, by decide, by decide⟩
  intro url c hc
  simp only [extract_channel_name, sanitizeName, String.toList] at hc
  obtain ⟨a, ha, rfl⟩ := List.mem_map.mp hc
  by_cases h : (isWordCharB a || a == '-' || a == '.') = true
  · rw [if_pos h]
    exact h
  · rw [if_neg h]
    decide

/-- Witness for C7's amended universal part at a concrete url and
character. -/
theorem c7_channel_name_amended_witness :
    'd' ∈ (extract_channel_name "https://www.youtube.com/@drekberg").toList ∧
    (isWordCharB 'd' || 'd' == '-' || 'd' == '.') = true :=
  ⟨by decide, c7_channel_name_amended.1 "https://www.youtube.com/@drekberg" 'd' (by decide)⟩

theorem char_toNat_ofNat_valid (n : Nat) (h : n < 55296) : (Char.ofNat n).toNat = n := by
  unfold Char.ofNat
  rw [dif_pos (Or.inl h)]
  rfl

theorem toLower_toNat (c : Char) :
    (Char.toLower c).toNat = if 65 ≤ c.toNat ∧ c.toNat ≤ 90 then c.toNat + 32 else c.toNat := by
  simp only [Char.toLower, ge_iff_le]
  by_cases h : 65 ≤ c.toNat ∧ c.toNat ≤ 90
  · rw [if_pos h, if_pos h]
    exact char_toNat_ofNat_valid _ (by omega)
  · rw [if_neg h, if_neg h]

theorem isPySpace_eq_false_of_ge (c : Char) (h : 33 ≤ c.toNat) : isPySpace c = false := by
  simp only [isPySpace, Bool.or_eq_false_iff, beq_eq_false_iff_ne, ne_eq]
  omega

theorem isPySpace_toLower (c : Char) : isPySpace (Char.toLower c) = isPySpace c := by
  have h := toLower_toNat c
  by_cases hc : 65 ≤ c.toNat ∧ c.toNat ≤ 90
  · rw [if_pos hc] at h
    rw [isPySpace_eq_false_of_ge _ (by omega), isPySpace_eq_false_of_ge _ (by omega : 33 ≤ c.toNat)]
  · rw [if_neg hc] at h
    simp only [isPySpace, h]

theorem toLower_idem (c : Char) : Char.toLower (Char.toLower c) = Char.toLower c := by
  by_cases hc : 65 ≤ c.toNat ∧ c.toNat ≤ 90
  · have h := toLower_toNat c
    rw [if_pos hc] at h
    conv_lhs => rw [Char.toLower]
    rw [if_neg (by rw [ge_iff_le, h]; omega)]
  · have h : Char.toLower c = c := by
      rw [Char.toLower, if_neg (by rw [ge_iff_le]; exact hc)]
    rw [h, h]

theorem dropWhile_head?_not (p : Char → Bool) (l : List Char) :
    ∀ c, (l.dropWhile p).head? = some c → p c = false := by
  induction l with
  | nil =>
    intro c hc
    simp [List.dropWhile] at hc
  | cons a l ih =>
    intro c hc
    rw [List.dropWhile_cons] at hc
    by_cases ha : p a = true
    · rw [if_pos ha] at hc
      exact ih c hc
    · rw [if_neg ha] at hc
      simp only [List.head?_cons, Option.some.injEq] at hc
      subst hc
      simpa using ha

theorem dropWhile_eq_self_of_head? (p : Char → Bool) (l : List Char)
    (h : ∀ c, l.head? = some c → p c = false) : l.dropWhile p = l := by
  cases l with
  | nil => rfl
  | cons a l =>
    rw [List.dropWhile_cons, h a rfl]
    simp

theorem head?_eq_of_starts {l₁ l₂ : List Char} (h : l₁ <+: l₂) (hne : l₁ ≠ []) :
    l₂.head? = l₁.head? := by
  obtain ⟨t, rfl⟩ := h
  cases l₁ with
  | nil => exact absurd rfl hne
  | cons a l => rfl

theorem stripTrail_starts (l : List Char) : stripTrail l <+: l := by
  have h := (List.dropWhile_suffix (l := l.reverse) isPySpace).reverse
  simpa [stripTrail] using h

theorem rstripSlash_starts (l : List Char) : rstripSlash l <+: l := by
  have h := (List.dropWhile_suffix (l := l.reverse) (fun c => c == '/')).reverse
  simpa [rstripSlash] using h

theorem normChars_starts_lower (l : List Char) : normChars l <+: pyLower (pyStrip l) :=
  rstripSlash_starts (pyLower (pyStrip l))

theorem normChars_idem (l : List Char)
    (hend : ∀ c, (normChars l).reverse.head? = some c → isPySpace c = false) :
    normChars (normChars l) = normChars l := by
  have hs : ∀ c, (normChars l).reverse.head? = some c → (c == '/') = false := by
    intro c hc
    have hrev : (normChars l).reverse =
        (pyLower (pyStrip l)).reverse.dropWhile (fun c => c == '/') := by
      simp [normChars, rstripSlash]
    rw [hrev] at hc
    exact dropWhile_head?_not _ _ c hc
  have hh : ∀ c, (normChars l).head? = some c → isPySpace c = false := by
    intro c hc
    have hne : normChars l ≠ [] := by
      intro h0
      rw [h0] at hc
      simp at hc
    have h1 : (pyLower (pyStrip l)).head? = (normChars l).head? :=
      head?_eq_of_starts (normChars_starts_lower l) hne
    have h2 : (pyLower (pyStrip l)).head? = some c := by rw [h1, hc]
    cases hm0 : pyStrip l with
    | nil =>
      rw [hm0] at h2
      simp [pyLower] at h2
    | cons a m' =>
      rw [hm0] at h2
      simp only [pyLower, List.map_cons, List.head?_cons, Option.some.injEq] at h2
      have hmne : pyStrip l ≠ [] := by rw [hm0]; simp
      have h3 : (stripLead l).head? = (pyStrip l).head? :=
        head?_eq_of_starts (stripTrail_starts (stripLead l)) hmne
      have h4 : (stripLead l).head? = some a := by rw [h3, hm0]; rfl
      have h5 : isPySpace a = false := dropWhile_head?_not isPySpace l a h4
      rw [← h2, isPySpace_toLower, h5]
  have hlow : pyLower (normChars l) = normChars l := by
    have hsub : normChars l ⊆ pyLower (pyStrip l) := (normChars_starts_lower l).subset
    have hfix : ∀ c ∈ normChars l, Char.toLower c = c := by
      intro c hcn
      obtain ⟨c', _, rfl⟩ := List.mem_map.mp (hsub hcn)
      exact toLower_idem c'
    calc (normChars l).map Char.toLower = (normChars l).map id := List.map_congr_left hfix
    _ = normChars l := List.map_id _
  have hlead : stripLead (normChars l) = normChars l :=
    dropWhile_eq_self_of_head? _ _ hh
  have htrail : stripTrail (normChars l) = normChars l := by
    rw [stripTrail, dropWhile_eq_self_of_head? _ _ hend, List.reverse_reverse]
  have hslash : rstripSlash (normChars l) = normChars l := by
    rw [rstripSlash, dropWhile_eq_self_of_head? _ _ hs, List.reverse_reverse]
  show rstripSlash (pyLower (pyStrip (normChars l))) = normChars l
  rw [pyStrip, hlead, htrail, hlow, hslash]

theorem hexPairs_length (bs : List Nat) :
    (bs.flatMap (fun b => [hexDigitChar (b / 16), hexDigitChar (b % 16)])).length =
      2 * bs.length := by
  induction bs with
  | nil => rfl
  | cons b bs ih =>
    rw [List.flatMap_cons, List.length_append, ih]
    simp
    omega

theorem md5Bytes_length (msg : List Nat) : (md5Bytes msg).length = 16 := by
  simp [md5Bytes, wordLEBytes]

theorem md5HexChars_length (msg : List Nat) : (md5HexChars msg).length = 32 := by
  rw [md5HexChars, hexPairs_length, md5Bytes_length]

theorem getD_mem_or (l : List Char) (n : Nat) (d : Char) : l.getD n d ∈ l ∨ l.getD n d = d := by
  induction l generalizing n with
  | nil =>
    right
    simp [List.getD]
  | cons a l ih =>
    cases n with
    | zero =>
      left
      simp [List.getD]
    | succ n =>
      have hstep : (a :: l).getD (n + 1) d = l.getD n d := rfl
      rw [hstep]
      rcases ih n with h | h
      · exact Or.inl (List.mem_cons_of_mem a h)
      · exact Or.inr h

theorem hexDigitChar_mem (n : Nat) : hexDigitChar n ∈ hexAlphabet := by
  rcases getD_mem_or hexAlphabet n '0' with h | h
  · exact h
  · rw [hexDigitChar, h]
    decide

/-- C5 counterexample: the claim's invariance fails when stripping the
trailing slash exposes trailing whitespace.  For url "a /" the claimed
equality is `channelId("a /") = channelId("a ")` (the trimmed, lowercased,
slash-stripped form of "a /" is "a "), but the code hashes "a " on the
left and "a" on the right, and the MD5 digests differ. -/
theorem c5_channel_id_counterexample :
    ¬ (generate_channel_id "a /" = generate_channel_id (normalize_url "a /")) := by
  decide

/-- C5 (amended): whenever the normalized form of the url does not end in
whitespace — in particular for any url without internal whitespace before
a trailing slash — `generate_channel_id` is invariant under trimming,
lowercasing and trailing-slash stripping; and for every url the result is
exactly 12 characters, all of them lowercase hex digits. -/
theorem c5_channel_id_amended (url : String)
    (h : endsWithPySpace (normalize_url url) = false) :
    generate_channel_id url = generate_channel_id (normalize_url url) ∧
    (generate_channel_id url).length = 12 ∧
    ∀ c ∈ (generate_channel_id url).toList, c ∈ hexAlphabet := by
  refine ⟨?_, ?_, ?_⟩
  · have hend : ∀ c, (normChars url.toList).reverse.head? = some c → isPySpace c = false := by
      intro c hc
      rw [endsWithPySpace] at h
      have : (normalize_url url).toList.reverse.head? = some c := hc
      rw [this] at h
      exact h
    have hidem : normChars (normChars url.toList) = normChars url.toList :=
      normChars_idem url.toList hend
    show String.mk ((md5HexChars (utf8Encode (normalize_url url))).take 12) =
      String.mk ((md5HexChars (utf8Encode (normalize_url (normalize_url url)))).take 12)
    have : normalize_url (normalize_url url) = normalize_url url := by
      show String.mk (normChars (normChars url.toList)) = String.mk (normChars url.toList)
      rw [hidem]
    rw [this]
  · show ((md5HexChars (utf8Encode (normalize_url url))).take 12).length = 12
    rw [List.length_take, md5HexChars_length]
    decide
  · intro c hc
    have hc' : c ∈ (md5HexChars (utf8Encode (normalize_url url))).take 12 := hc
    have hc'' := List.mem_of_mem_take hc'
    obtain ⟨b, _, hb⟩ := List.mem_flatMap.mp hc''
    rcases List.mem_cons.mp hb with h1 | h1
    · rw [h1]
      exact hexDigitChar_mem _
    · have h2 : c = hexDigitChar (b % 16) := by simpa using h1
      rw [h2]
      exact hexDigitChar_mem _

/-- Witness for C5's amended claim: it yields the spec's determinism
example `channelId("https://x/@a/") = channelId("HTTPS://X/@A")`. -/
theorem c5_channel_id_amended_witness :
    endsWithPySpace (normalize_url "https://x/@a/") = false ∧
    generate_channel_id "https://x/@a/" = generate_channel_id "HTTPS://X/@A" := by
  refine ⟨by decide, ?_⟩
  have h1 := (c5_channel_id_amended "https://x/@a/" (by decide)).1
  have h2 := (c5_channel_id_amended "HTTPS://X/@A" (by decide)).1
  have heq : normalize_url "https://x/@a/" = normalize_url "HTTPS://X/@A" := by decide
  rw [h1, h2, heq]

theorem jKeys_append (d e : ConfigDoc) : jKeys (d ++ e) = jKeys d ++ jKeys e := by
  simp [jKeys]

theorem jHasKey_of_lookup (d : ConfigDoc) (k : String) (v : JValue)
    (h : jLookup d k = some v) : jHasKey d k = true := by
  rw [jLookup] at h
  cases hf : d.find? (fun kv => kv.1 == k) with
  | none => rw [hf] at h; simp at h
  | some kv =>
    rw [jHasKey, List.any_eq_true]
    have hmem := List.mem_of_find?_eq_some hf
    have hp := List.find?_some hf
    exact ⟨kv, hmem, hp⟩

theorem find?_isSome_of_mem_keys (d : ConfigDoc) (k : String) (h : k ∈ jKeys d) :
    (d.find? (fun kv => kv.1 == k)).isSome := by
  rw [List.find?_isSome]
  obtain ⟨kv, hkv, hfst⟩ := List.mem_map.mp h
  exact ⟨kv, hkv, by simp [hfst]⟩

theorem jSet_keys_of_hasKey (d : ConfigDoc) (k : String) (v : JValue)
    (h : jHasKey d k = true) : jKeys (jSet d k v) = jKeys d := by
  simp only [jSet, if_pos h, jKeys, List.map_map]
  apply List.map_congr_left
  intro kv _
  by_cases hc : kv.1 = k <;> simp [hc]

theorem jSet_keys_superset (d : ConfigDoc) (k : String) (v : JValue) (k' : String)
    (h : k' ∈ jKeys d) : k' ∈ jKeys (jSet d k v) := by
  by_cases hc : jHasKey d k = true
  · rw [jSet_keys_of_hasKey d k v hc]
    exact h
  · simp only [jSet, if_neg hc]
    rw [jKeys_append]
    exact List.mem_append_left _ h

theorem jLookup_map_update (d : ConfigDoc) (k : String) (v : JValue)
    (h : jHasKey d k = true) :
    jLookup (d.map (fun kv => if kv.1 == k then (kv.1, v) else kv)) k = some v := by
  induction d with
  | nil => simp [jHasKey] at h
  | cons a d ih =>
    by_cases hc : a.1 = k
    · simp [jLookup, List.find?, hc]
    · have h' : jHasKey d k = true := by
        have hck : jHasKey (a :: d) k = (a.1 == k || jHasKey d k) := by simp [jHasKey]
        rw [hck] at h
        simpa [hc] using h
      have hga : (if a.1 == k then (a.1, v) else a) = a := by simp [hc]
      have hp : ¬((fun kv : String × JValue => kv.1 == k) a = true) := by simp [hc]
      rw [List.map_cons, hga, jLookup,
        @List.find?_cons_of_neg _ (fun kv => kv.1 == k) a _ hp]
      exact ih h'

theorem jLookup_jSet_self (d : ConfigDoc) (k : String) (v : JValue) :
    jLookup (jSet d k v) k = some v := by
  by_cases h : jHasKey d k = true
  · simp only [jSet, if_pos h]
    exact jLookup_map_update d k v h
  · simp only [jSet, if_neg h]
    rw [jLookup, List.find?_append]
    have h1 : d.find? (fun kv => kv.1 == k) = none := by
      rw [List.find?_eq_none]
      intro kv hkv hbeq
      exact h (by rw [jHasKey, List.any_eq_true]; exact ⟨kv, hkv, hbeq⟩)
    rw [h1]
    simp [List.find?]

theorem fillFold_keys_mono (L : List (String × JValue)) :
    ∀ (st : ConfigDoc × Bool) (k : String), k ∈ jKeys st.1 →
      k ∈ jKeys (L.foldl fillStep st).1 := by
  induction L with
  | nil => intro st k hk; exact hk
  | cons a L ih =>
    intro st k hk
    rw [List.foldl_cons]
    apply ih
    cases hcase : jHasKey st.1 a.1 with
    | true => simpa [fillStep, hcase] using hk
    | false =>
      simp only [fillStep, hcase]
      rw [if_neg (by simp)]
      rw [jKeys_append]
      exact List.mem_append_left _ hk

theorem fillFold_adds (L : List (String × JValue)) :
    ∀ (st : ConfigDoc × Bool), ∀ kv ∈ L, kv.1 ∈ jKeys (L.foldl fillStep st).1 := by
  induction L with
  | nil => intro st kv h; simp at h
  | cons a L ih =>
    intro st kv hkv
    rw [List.foldl_cons]
    rcases List.mem_cons.mp hkv with rfl | h
    · apply fillFold_keys_mono
      cases hcase : jHasKey st.1 kv.1 with
      | true =>
        have hstep : fillStep st kv = st := by simp [fillStep, hcase]
        rw [hstep]
        exact (jHasKey_iff _ _).mp hcase
      | false =>
        simp only [fillStep, hcase]
        rw [if_neg (by simp)]
        rw [jKeys_append]
        apply List.mem_append_right
        simp [jKeys]
    · exact ih _ kv h

theorem fillFold_flag_mono (L : List (String × JValue)) :
    ∀ (st : ConfigDoc × Bool), st.2 = true → (L.foldl fillStep st).2 = true := by
  induction L with
  | nil => intro st h; exact h
  | cons a L ih =>
    intro st h
    rw [List.foldl_cons]
    apply ih
    cases hcase : jHasKey st.1 a.1 with
    | true => simpa [fillStep, hcase] using h
    | false =>
      simp only [fillStep, hcase]
      rw [if_neg (by simp)]

theorem fillFold_flag_false (L : List (String × JValue)) :
    ∀ (st : ConfigDoc × Bool), (L.foldl fillStep st).2 = false →
      st.2 = false ∧ ∀ kv ∈ L, kv.1 ∈ jKeys st.1 := by
  induction L with
  | nil =>
    intro st h
    exact ⟨h, by intro kv hkv; simp at hkv⟩
  | cons a L ih =>
    intro st h
    rw [List.foldl_cons] at h
    cases hcase : jHasKey st.1 a.1 with
    | false =>
      have htrue : (L.foldl fillStep (fillStep st a)).2 = true := by
        apply fillFold_flag_mono
        simp only [fillStep, hcase]
        rw [if_neg (by simp)]
      rw [htrue] at h
      exact absurd h (by decide)
    | true =>
      have hstep : fillStep st a = st := by simp [fillStep, hcase]
      rw [hstep] at h
      obtain ⟨h1, h2⟩ := ih st h
      refine ⟨h1, ?_⟩
      intro kv hkv
      rcases List.mem_cons.mp hkv with rfl | hh
      · exact (jHasKey_iff _ _).mp hcase
      · exact h2 kv hh

theorem fillFold_lookup_preserved (L : List (String × JValue)) :
    ∀ (st : ConfigDoc × Bool) (k : String), k ∈ jKeys st.1 →
      jLookup (L.foldl fillStep st).1 k = jLookup st.1 k := by
  induction L with
  | nil => intro st k _; rfl
  | cons a L ih =>
    intro st k hk
    rw [List.foldl_cons]
    cases hcase : jHasKey st.1 a.1 with
    | true =>
      have hstep : fillStep st a = st := by simp [fillStep, hcase]
      rw [hstep]
      exact ih st k hk
    | false =>
      have hstep : fillStep st a = (st.1 ++ [(a.1, a.2)], true) := by
        simp only [fillStep, hcase]
        rw [if_neg (by simp)]
      rw [hstep]
      have hk' : k ∈ jKeys ((st.1 ++ [(a.1, a.2)], true) : ConfigDoc × Bool).1 := by
        rw [jKeys_append]
        exact List.mem_append_left _ hk
      rw [ih _ k hk']
      show jLookup (st.1 ++ [(a.1, a.2)]) k = jLookup st.1 k
      rw [jLookup, jLookup, List.find?_append]
      have hsome := find?_isSome_of_mem_keys st.1 k hk
      obtain ⟨kv, hkv⟩ := Option.isSome_iff_exists.mp hsome
      rw [hkv, Option.or_some]

theorem channelsCheck_keys (st : ConfigDoc × Bool) (k : String) (hk : k ∈ jKeys st.1) :
    k ∈ jKeys (channelsCheck st).1 := by
  rw [channelsCheck]
  split
  · exact hk
  · exact jSet_keys_superset _ _ _ _ hk

theorem channelsCheck_flag_mono (st : ConfigDoc × Bool) (h : st.2 = true) :
    (channelsCheck st).2 = true := by
  rw [channelsCheck]
  split
  · exact h
  · rfl

theorem channelsCheck_flag_false (st : ConfigDoc × Bool)
    (h : (channelsCheck st).2 = false) : st.2 = false := by
  rw [channelsCheck] at h
  revert h
  split
  · exact fun h => h
  · intro h
    simp at h

theorem channelsCheck_of_arr (st : ConfigDoc × Bool) (l : List JValue)
    (h : jLookup st.1 "channels" = some (JValue.arr l)) : channelsCheck st = st := by
  rw [channelsCheck, h]

theorem migrateStep_keys (d d' : ConfigDoc) (flag : Bool)
    (h : migrateStep d = MigrateResult.ok d' flag) : jKeys d' = jKeys d := by
  rw [migrateStep] at h
  split at h
  · injection h with h1 h2
    rw [← h1]
  · rename_i v hl
    split at h
    · split at h
      · rename_i x hx
        split at h
        · injection h with h1 h2
          rw [← h1]
          exact jSet_keys_of_hasKey _ _ _ (jHasKey_of_lookup d "channels" v hl)
        · injection h with h1 h2
          rw [← h1]
      · exact MigrateResult.noConfusion h
      · exact MigrateResult.noConfusion h
    · injection h with h1 h2
      rw [← h1]

theorem load_keys_aux (st : ConfigDoc × Bool) (k : String) (hk : k ∈ jKeys DEFAULT_CONFIG) :
    k ∈ jKeys (channelsCheck (fillDefaults st)).1 := by
  apply channelsCheck_keys
  obtain ⟨kv, hkv, rfl⟩ := List.mem_map.mp hk
  exact fillFold_adds DEFAULT_CONFIG st kv hkv

/-- C6: after `load_config` every key of the fixed default set is present,
whatever the input state; a legacy document whose channels are plain
strings is migrated to `{url, completed: false}` objects preserving order
and the corrected document is marked for saving; an absent or malformed
file silently yields the defaults (already persisted); and whenever some
default key was missing from a parsed document the corrected document is
persisted (`config_to_save` is true). -/
theorem c6_load_config (f : ConfigFile) (d cfg : ConfigDoc) (saved : Bool) :
    (load_config f = some (cfg, saved) → ∀ k ∈ jKeys DEFAULT_CONFIG, k ∈ jKeys cfg) ∧
    (∀ ss : List String, ss ≠ [] →
      jLookup d "channels" = some (JValue.arr (ss.map JValue.str)) →
      ∃ cfg', load_config (ConfigFile.parsed d) = some (cfg', true) ∧
        jLookup cfg' "channels" = some (JValue.arr (ss.map (fun s =>
          JValue.obj [("url", JValue.str s), ("completed", JValue.jbool false)])))) ∧
    load_config ConfigFile.absent = some (DEFAULT_CONFIG, true) ∧
    load_config ConfigFile.malformed = some (DEFAULT_CONFIG, true) ∧
    (load_config (ConfigFile.parsed d) = some (cfg, saved) →
      (∃ k ∈ jKeys DEFAULT_CONFIG, k ∉ jKeys d) → saved = true) := by
  refine ⟨?_, ?_, rfl, rfl, ?_⟩
  · intro h k hk
    cases f with
    | absent =>
      rw [load_config] at h
      injection h with h'
      have h1 : (channelsCheck (fillDefaults (DEFAULT_CONFIG, true))).1 = cfg := by rw [h']
      rw [← h1]
      exact load_keys_aux _ k hk
    | malformed =>
      rw [load_config] at h
      injection h with h'
      have h1 : (channelsCheck (fillDefaults (DEFAULT_CONFIG, true))).1 = cfg := by rw [h']
      rw [← h1]
      exact load_keys_aux _ k hk
    | parsed dd =>
      rw [load_config] at h
      split at h
      · rename_i d' flag hmig
        injection h with h'
        have h1 : (channelsCheck (fillDefaults (d', flag))).1 = cfg := by rw [h']
        rw [← h1]
        exact load_keys_aux _ k hk
      · injection h with h'
        have h1 : (channelsCheck (fillDefaults (DEFAULT_CONFIG, true))).1 = cfg := by rw [h']
        rw [← h1]
        exact load_keys_aux _ k hk
      · exact Option.noConfusion h
  · intro ss hne hl
    obtain ⟨s0, ss', rfl⟩ : ∃ s0 ss', ss = s0 :: ss' := by
      cases ss with
      | nil => exact absurd rfl hne
      | cons a l => exact ⟨a, l, rfl⟩
    have hmig : migrateStep d = MigrateResult.ok
        (jSet d "channels" (JValue.arr ((s0 :: ss').map (fun s =>
          JValue.obj [("url", JValue.str s), ("completed", JValue.jbool false)])))) true := by
      rw [migrateStep, hl]
      simp [jTruthy, pyIndex0, jIsStr, pyIterate, List.map_map, Function.comp]
      rfl
    set V : JValue := JValue.arr ((s0 :: ss').map (fun s =>
      JValue.obj [("url", JValue.str s), ("completed", JValue.jbool false)])) with hV
    have hchan : jHasKey d "channels" = true := jHasKey_of_lookup d "channels" _ hl
    have hlk : jLookup (fillDefaults (jSet d "channels" V, true)).1 "channels" = some V := by
      rw [fillDefaults]
      rw [fillFold_lookup_preserved DEFAULT_CONFIG (jSet d "channels" V, true) "channels"
        (by rw [jSet_keys_of_hasKey d "channels" V hchan]; exact (jHasKey_iff _ _).mp hchan)]
      exact jLookup_jSet_self d "channels" V
    have hcc : channelsCheck (fillDefaults (jSet d "channels" V, true)) =
        fillDefaults (jSet d "channels" V, true) := channelsCheck_of_arr _ _ hlk
    have hflag : (fillDefaults (jSet d "channels" V, true)).2 = true :=
      fillFold_flag_mono DEFAULT_CONFIG _ rfl
    refine ⟨(fillDefaults (jSet d "channels" V, true)).1, ?_, ?_⟩
    · rw [load_config]
      rw [hmig]
      show some (channelsCheck (fillDefaults (jSet d "channels" V, true))) =
        some ((fillDefaults (jSet d "channels" V, true)).1, true)
      rw [hcc]
      revert hflag
      generalize fillDefaults (jSet d "channels" V, true) = X
      intro hflag
      obtain ⟨x1, x2⟩ := X
      have hx : x2 = true := hflag
      subst hx
      rfl
    · exact hlk
  · intro h hmiss
    cases saved with
    | true => rfl
    | false =>
      exfalso
      rw [load_config] at h
      split at h
      · rename_i d' flag hmig
        injection h with h'
        have hfl : (channelsCheck (fillDefaults (d', flag))).2 = false :=
          congrArg Prod.snd h'
        have hfl2 : (fillDefaults (d', flag)).2 = false := channelsCheck_flag_false _ hfl
        obtain ⟨_, hall⟩ := fillFold_flag_false DEFAULT_CONFIG (d', flag) hfl2
        obtain ⟨k, hk, hnk⟩ := hmiss
        obtain ⟨kv, hkv, rfl⟩ := List.mem_map.mp hk
        have : kv.1 ∈ jKeys d' := hall kv hkv
        rw [migrateStep_keys d d' flag hmig] at this
        exact hnk this
      · injection h with h'
        have hfl : (channelsCheck (fillDefaults (DEFAULT_CONFIG, true))).2 = false :=
          congrArg Prod.snd h'
        have htrue : (channelsCheck (fillDefaults (DEFAULT_CONFIG, true))).2 = true :=
          channelsCheck_flag_mono _ (fillFold_flag_mono DEFAULT_CONFIG _ rfl)
        rw [htrue] at hfl
        exact Bool.noConfusion hfl
      · exact Option.noConfusion h

/-- Witness for C6: a legacy single-string channel list is migrated and
persisted. -/
theorem c6_load_config_witness :
    ∃ cfg', load_config (ConfigFile.parsed [("channels", JValue.arr [JValue.str "u"])]) =
      some (cfg', true) ∧
      jLookup cfg' "channels" = some (JValue.arr [JValue.obj
        [("url", JValue.str "u"), ("completed", JValue.jbool false)]]) :=
  (c6_load_config (ConfigFile.parsed [("channels", JValue.arr [JValue.str "u"])])
    [("channels", JValue.arr [JValue.str "u"])] [] true).2.1 ["u"] (by simp) rfl
